import Mathlib

/-!
Verification of the coalescing save-queue scheduler (`SaveQueue`) and the
durable-write / JSON-file utilities of the repository.

The scheduler is asynchronous TypeScript; its state mutations between
`await` suspension points are synchronous under the run-to-completion
event-loop model, so we embed it as a per-key transition system whose
events are exactly the resumption points of the source:

  * `Ev.req c`        — the synchronous body of `requestSave(key)` runs
                        for caller `c` (promise executor included);
  * `Ev.timerFire`    — a scheduled `setTimeout` callback for the key runs:
                        it deletes the map entry and executes `flush(key)`
                        synchronously up to the first `await this.saveFn(key)`;
  * `Ev.saveDone i b` — the awaited `saveFn(key)` of flush execution `i`
                        settles (`b` = it rejected/threw); the catch block,
                        dirty check, and (when the loop exits) the `finally`
                        block all run synchronously;
  * `Ev.sleepDone i`  — the awaited `sleep(delayMs)` of flush execution `i`
                        completes; the loop re-enters its top synchronously
                        up to the next `await this.saveFn(key)`.

All fields of the source class are `Map`/`Set` containers keyed by the key,
so the state for distinct keys is disjoint; the embedding models the state
associated with one fixed key.  To keep "at most one pending timer" and
"at most one in-flight flush" provable facts rather than modelling
artifacts, the environment's pool of scheduled-but-unfired timer callbacks
for the key is a counter (`timersLive`) and the concurrently executing
`flush(key)` calls form a list (`flushes`) — the source offers no structural
reason a buggy variant could not have several of either.
-/

namespace SaveQueue

/-- Continuation point of one executing `flush(key)` call: suspended on
`await this.saveFn(key)` (`running`) or on `await sleep(this.delayMs)`
(`cooling`). -/
inductive FlushPhase
  | running
  | cooling
deriving DecidableEq

/-- The scheduler's state for one fixed key, plus the environment's timer
pool for that key.

* `timerSet`   — `this.debounceTimers.has(key)`
* `timersLive` — number of scheduled, not-yet-fired `setTimeout` callbacks
  created for this key and still pending in the runtime
* `activeSet`  — `this.activeSaves.has(key)`
* `dirty`      — `this.dirtyWhileSaving.has(key)`
* `resolvers`  — `this.pendingResolvers.get(key)` (caller ids, in push order;
  an absent map entry is the empty list)
* `flushes`    — the continuation points of every currently executing
  `flush(key)` call -/
structure QState where
  timerSet : Bool
  timersLive : Nat
  activeSet : Bool
  dirty : Bool
  resolvers : List Nat
  flushes : List FlushPhase
deriving DecidableEq

/-- A fresh `SaveQueue` holds no state for the key. -/
def initState : QState := ⟨false, 0, false, false, [], []⟩

/-- Construction-time configuration: `delayMs` and whether an `onError`
callback was supplied. -/
structure Config where
  delayMs : Nat
  hasOnError : Bool
deriving DecidableEq

/-- Observable actions of a transition. -/
inductive Out
  | setTimer (d : Nat)        -- `setTimeout(..., d)` executed
  | invokeSave                -- `this.saveFn(key)` called
  | errorToHandler            -- `this.onError(key, error)` called
  | errorLogged               -- `console.error(...)` fallback
  | sleepStart (d : Nat)      -- `sleep(d)` called
  | resolved (cs : List Nat)  -- the listed pending resolvers all invoked
deriving DecidableEq

/-- Events: the scheduling decisions the runtime makes for this key. -/
inductive Ev
  | req (c : Nat)
  | timerFire
  | saveDone (i : Nat) (threw : Bool)
  | sleepDone (i : Nat)
deriving DecidableEq

/-- `requestSave(key)` (source lines 34–61): push the caller's `resolve`
onto the pending list; if a save is active, mark dirty and return; if a
timer is already scheduled, return; otherwise schedule a timer for
`delayMs`.  The function body never throws and the promise executor never
rejects, so the embedding is a total function with no error outcome. -/
def requestSave (cfg : Config) (s : QState) (c : Nat) : QState × List Out :=
  if s.activeSet then
    ({ s with resolvers := s.resolvers ++ [c], dirty := true }, [])
  else if s.timerSet then
    ({ s with resolvers := s.resolvers ++ [c] }, [])
  else
    ({ s with resolvers := s.resolvers ++ [c],
              timerSet := true, timersLive := s.timersLive + 1 },
     [Out.setTimer cfg.delayMs])

/-- The catch block of the flush loop (source lines 72–78): a rejected
`saveFn` is routed to `onError` when configured, else logged. -/
def errOut (cfg : Config) (threw : Bool) : List Out :=
  if threw then
    [if cfg.hasOnError then Out.errorToHandler else Out.errorLogged]
  else []

/-- One transition of the per-key machine; `none` when the event is not
enabled (no such pending timer / no flush suspended at that point). -/
def step (cfg : Config) (s : QState) : Ev → Option (QState × List Out)
  | Ev.req c => some (requestSave cfg s c)
  | Ev.timerFire =>
    -- timer callback: `debounceTimers.delete(key)`, then `flush(key)` runs
    -- `activeSaves.add`, `dirtyWhileSaving.delete`, and calls `saveFn(key)`,
    -- suspending on its promise (source lines 55–58, 64–71).
    if 1 ≤ s.timersLive then
      some ({ s with timersLive := s.timersLive - 1, timerSet := false,
                     activeSet := true, dirty := false,
                     flushes := s.flushes ++ [FlushPhase.running] },
            [Out.invokeSave])
    else none
  | Ev.saveDone i threw =>
    if s.flushes.get? i = some FlushPhase.running then
      if s.dirty then
        -- lines 80–84: re-dirtied, so start `sleep(delayMs)` and suspend.
        some ({ s with flushes := s.flushes.set i FlushPhase.cooling },
              errOut cfg threw ++ [Out.sleepStart cfg.delayMs])
      else
        -- lines 85–100: leave the loop; `finally` deletes the active mark
        -- and resolves every pending resolver, clearing the map entry.
        some ({ s with flushes := s.flushes.eraseIdx i,
                       activeSet := false, resolvers := [] },
              errOut cfg threw ++ [Out.resolved s.resolvers])
    else none
  | Ev.sleepDone i =>
    if s.flushes.get? i = some FlushPhase.cooling then
      -- `continue`: loop top deletes the dirty mark and calls `saveFn`
      -- again (lines 67–71), suspending on its promise.
      some ({ s with dirty := false,
                     flushes := s.flushes.set i FlushPhase.running },
            [Out.invokeSave])
    else none

/-- Run a sequence of events, accumulating the observable outputs. -/
def run (cfg : Config) : QState → List Ev → Option (QState × List Out)
  | s, [] => some (s, [])
  | s, e :: es =>
    match step cfg s e with
    | none => none
    | some (s', outs) =>
      match run cfg s' es with
      | none => none
      | some (s'', outs') => some (s'', outs ++ outs')

/-- Number of `saveFn(key)` invocations recorded in an output trace. -/
def saveCalls (outs : List Out) : Nat :=
  outs.countP fun o => o == Out.invokeSave

/-- Number of error reports (to `onError` or the log) in an output trace. -/
def errCalls (outs : List Out) : Nat :=
  outs.countP fun o => o == Out.errorToHandler || o == Out.errorLogged

/-- Number of flush attempts of an event sequence whose `saveFn` threw. -/
def throwCount (evs : List Ev) : Nat :=
  evs.countP fun e =>
    match e with
    | Ev.saveDone _ true => true
    | _ => false

/-- A list of length at most one holding `a` at position `i` is `[a]`,
with `i = 0`. -/
theorem eq_singleton_of_get (l : List FlushPhase) (i : Nat) (a : FlushPhase)
    (hlen : l.length ≤ 1) (h : l.get? i = some a) : l = [a] ∧ i = 0 := by
  match l, i with
  | [], i => simp [List.get?] at h
  | [x], 0 =>
    simp [List.get?] at h
    simp [h]
  | [x], n + 1 => simp [List.get?] at h
  | x :: y :: t, i => simp at hlen

/-- Inductive invariant of the per-key machine: the map entry tracks the
single live timer callback, the active-save mark tracks the single
executing flush, a timer and a flush never coexist, and the dirty mark
only exists while a flush executes. -/
def Inv (s : QState) : Prop :=
  s.timersLive ≤ 1 ∧ (s.timerSet ↔ s.timersLive = 1) ∧
  s.flushes.length ≤ 1 ∧ (s.activeSet ↔ s.flushes.length = 1) ∧
  (s.timersLive = 0 ∨ s.flushes = []) ∧
  (s.flushes = [] → s.dirty = false)

instance (s : QState) : Decidable (Inv s) := by
  unfold Inv
  infer_instance

theorem inv_init : Inv initState := by
  simp [Inv, initState]

theorem step_preserves_inv (cfg : Config) (s s' : QState) (e : Ev)
    (outs : List Out) (h : step cfg s e = some (s', outs)) (hs : Inv s) :
    Inv s' := by
  obtain ⟨h1, h2, h3, h4, h5, h6⟩ := hs
  cases e with
  | req c =>
    simp only [step, requestSave, Option.some.injEq, Prod.mk.injEq] at h
    split_ifs at h with ha ht
    · obtain ⟨rfl, rfl⟩ := h
      refine ⟨h1, h2, h3, h4, h5, ?_⟩
      intro hf
      have : s.flushes.length = 1 := h4.mp ha
      rw [hf] at this
      simp at this
    · obtain ⟨rfl, rfl⟩ := h
      exact ⟨h1, h2, h3, h4, h5, h6⟩
    · obtain ⟨rfl, rfl⟩ := h
      have ht0 : s.timersLive = 0 := by
        rcases Nat.lt_or_ge s.timersLive 1 with hlt | hge
        · omega
        · exact absurd (h2.mpr (by omega)) ht
      have hf0 : s.flushes = [] := by
        rcases Nat.eq_or_lt_of_le h3 with heq | hlt
        · exact absurd (h4.mpr heq) ha
        · exact List.length_eq_zero.mp (by omega)
      refine ⟨by simp [ht0], by simp [ht0], h3, h4, Or.inr hf0, h6⟩
  | timerFire =>
    simp only [step] at h
    split_ifs at h with htl
    · simp only [Option.some.injEq, Prod.mk.injEq] at h
      obtain ⟨rfl, rfl⟩ := h
      have hf0 : s.flushes = [] := by
        rcases h5 with h0 | hf
        · omega
        · exact hf
      refine ⟨?_, ?_, ?_, ?_, ?_, ?_⟩ <;> dsimp only
      · omega
      · simp
        omega
      · simp [hf0]
      · simp [hf0]
      · left
        omega
      · simp
  | saveDone i threw =>
    simp only [step] at h
    split_ifs at h with hget hd
    · simp only [Option.some.injEq, Prod.mk.injEq] at h
      obtain ⟨rfl, rfl⟩ := h
      obtain ⟨hfl, rfl⟩ := eq_singleton_of_get _ _ _ h3 hget
      have htl0 : s.timersLive = 0 := by
        rcases h5 with h0 | hf
        · exact h0
        · rw [hfl] at hf; simp at hf
      refine ⟨h1, h2, ?_, ?_, Or.inl htl0, ?_⟩
      · simp [hfl]
      · simpa [hfl] using h4
      · simp [hfl]
    · simp only [Option.some.injEq, Prod.mk.injEq] at h
      obtain ⟨rfl, rfl⟩ := h
      obtain ⟨hfl, rfl⟩ := eq_singleton_of_get _ _ _ h3 hget
      refine ⟨h1, h2, by simp [hfl], by simp [hfl], Or.inr (by simp [hfl]), ?_⟩
      intro _
      simpa using hd
  | sleepDone i =>
    simp only [step] at h
    split_ifs at h with hget
    · simp only [Option.some.injEq, Prod.mk.injEq] at h
      obtain ⟨rfl, rfl⟩ := h
      obtain ⟨hfl, rfl⟩ := eq_singleton_of_get _ _ _ h3 hget
      have htl0 : s.timersLive = 0 := by
        rcases h5 with h0 | hf
        · exact h0
        · rw [hfl] at hf; simp at hf
      refine ⟨h1, h2, by simp [hfl], by simpa [hfl] using h4,
              Or.inl htl0, by simp [hfl]⟩

theorem run_preserves_inv (cfg : Config) (evs : List Ev) (s s' : QState)
    (outs : List Out) (h : run cfg s evs = some (s', outs)) (hs : Inv s) :
    Inv s' := by
  induction evs generalizing s outs with
  | nil =>
    simp only [run, Option.some.injEq, Prod.mk.injEq] at h
    obtain ⟨rfl, rfl⟩ := h
    exact hs
  | cons e es ih =>
    cases hstep : step cfg s e with
    | none => simp [run, hstep] at h
    | some p =>
      obtain ⟨s₁, o₁⟩ := p
      cases hrun : run cfg s₁ es with
      | none => simp [run, hstep, hrun] at h
      | some q =>
        obtain ⟨s₂, o₂⟩ := q
        simp only [run, hstep, hrun, Option.some.injEq, Prod.mk.injEq] at h
        obtain ⟨rfl, rfl⟩ := h
        exact ih s₁ o₂ hrun (step_preserves_inv cfg s s₁ e o₁ hstep hs)

/-- **C1**: for every key, after any sequence of `requestSave` calls (and
any interleaving of timer fires and save/sleep completions), the queue
holds at most one pending debounce timer and at most one in-flight
`flush` — in particular at most one suspended `saveFn` invocation — and
while a flush is active no further flush can begin: the timer-fire event
that starts a flush is disabled, because `requestSave`'s synchronous
active-save and pending-timer checks never scheduled a timer while the
key was active. -/
theorem requestSave_single_timer_single_flight (cfg : Config) (evs : List Ev)
    (s : QState) (outs : List Out)
    (h : run cfg initState evs = some (s, outs)) :
    s.timersLive ≤ 1 ∧
    s.flushes.length ≤ 1 ∧
    s.flushes.countP (fun p => p == FlushPhase.running) ≤ 1 ∧
    (s.activeSet = true → step cfg s Ev.timerFire = none) := by
  have hinv := run_preserves_inv cfg evs initState s outs h inv_init
  obtain ⟨h1, h2, h3, h4, h5, h6⟩ := hinv
  refine ⟨h1, h3, le_trans (List.countP_le_length _) h3, ?_⟩
  intro ha
  have hlen : s.flushes.length = 1 := h4.mp (by simp [ha])
  have hne : s.flushes ≠ [] := by
    intro hf
    rw [hf] at hlen
    simp at hlen
  have ht0 : s.timersLive = 0 := h5.resolve_right hne
  simp [step, ht0]

theorem requestSave_single_timer_single_flight_witness :
    (⟨true, 1, false, false, [0], []⟩ : QState).timersLive ≤ 1 ∧
    (⟨true, 1, false, false, [0], []⟩ : QState).flushes.length ≤ 1 ∧
    (⟨true, 1, false, false, [0], []⟩ : QState).flushes.countP
      (fun p => p == FlushPhase.running) ≤ 1 ∧
    ((⟨true, 1, false, false, [0], []⟩ : QState).activeSet = true →
      step ⟨50, true⟩ ⟨true, 1, false, false, [0], []⟩ Ev.timerFire = none) :=
  requestSave_single_timer_single_flight ⟨50, true⟩ [Ev.req 0]
    ⟨true, 1, false, false, [0], []⟩ [Out.setTimer 50] (by decide)

theorem run_append (cfg : Config) (s : QState) (es₁ es₂ : List Ev) :
    run cfg s (es₁ ++ es₂) =
      (run cfg s es₁).bind fun p =>
        (run cfg p.1 es₂).map fun q => (q.1, p.2 ++ q.2) := by
  induction es₁ generalizing s with
  | nil =>
    cases hr : run cfg s es₂ with
    | none => simp [run, hr]
    | some q => simp [run, hr]
  | cons e es ih =>
    cases hstep : step cfg s e with
    | none => simp [run, hstep]
    | some p =>
      obtain ⟨s₁, o₁⟩ := p
      simp only [List.cons_append, run, hstep, List.append_eq]
      rw [ih]
      cases h1 : run cfg s₁ es with
      | none => simp [h1]
      | some q =>
        obtain ⟨s₂, o₂⟩ := q
        cases h2 : run cfg s₂ es₂ with
        | none => simp [h1, h2]
        | some r => simp [h1, h2]

theorem saveCalls_append (o₁ o₂ : List Out) :
    saveCalls (o₁ ++ o₂) = saveCalls o₁ + saveCalls o₂ := by
  simp [saveCalls, List.countP_append]

theorem saveCalls_errOut (cfg : Config) (t : Bool) :
    saveCalls (errOut cfg t) = 0 := by
  cases t <;> cases h : cfg.hasOnError <;> simp [errOut, saveCalls, h]

theorem errCalls_append (o₁ o₂ : List Out) :
    errCalls (o₁ ++ o₂) = errCalls o₁ + errCalls o₂ := by
  simp [errCalls, List.countP_append]

theorem errCalls_errOut (cfg : Config) (t : Bool) :
    errCalls (errOut cfg t) = if t then 1 else 0 := by
  cases t <;> cases h : cfg.hasOnError <;> simp [errOut, errCalls, h]

theorem errCalls_nil : errCalls [] = 0 := rfl

theorem errCalls_cons_invoke (os : List Out) :
    errCalls (Out.invokeSave :: os) = errCalls os := rfl

theorem errCalls_cons_resolved (l : List Nat) (os : List Out) :
    errCalls (Out.resolved l :: os) = errCalls os := rfl

theorem errCalls_cons_sleepStart (d : Nat) (os : List Out) :
    errCalls (Out.sleepStart d :: os) = errCalls os := rfl

/-- While a save for the key is active, `requestSave` calls only append
their resolver and set the dirty mark (source lines 44–47). -/
theorem run_reqs_active (cfg : Config) (s : QState) (cs : List Nat)
    (ha : s.activeSet = true) :
    run cfg s (cs.map Ev.req) =
      some ({ s with resolvers := s.resolvers ++ cs,
                     dirty := s.dirty || !cs.isEmpty }, []) := by
  induction cs generalizing s ha with
  | nil => simp [run]
  | cons c cs ih =>
    have hstep : step cfg s (Ev.req c) =
        some ({ s with resolvers := s.resolvers ++ [c], dirty := true }, []) := by
      simp [step, requestSave, ha]
    simp only [List.map_cons, run, hstep]
    rw [ih { s with resolvers := s.resolvers ++ [c], dirty := true } ha]
    simp

/-- While a debounce timer is pending and no save is active, `requestSave`
calls only append their resolver (source lines 49–53). -/
theorem run_reqs_debounce (cfg : Config) (s : QState) (cs : List Nat)
    (ha : s.activeSet = false) (ht : s.timerSet = true) :
    run cfg s (cs.map Ev.req) =
      some ({ s with resolvers := s.resolvers ++ cs }, []) := by
  induction cs generalizing s ha ht with
  | nil => simp [run]
  | cons c cs ih =>
    have hstep : step cfg s (Ev.req c) =
        some ({ s with resolvers := s.resolvers ++ [c] }, []) := by
      simp [step, requestSave, ha, ht]
    simp only [List.map_cons, run, hstep]
    rw [ih { s with resolvers := s.resolvers ++ [c] } ha ht]
    simp

/-- **C6**: a `requestSave` call arriving while a debounce timer for the
key is already pending (and no save is active) leaves the timer untouched:
no timer is cancelled or created (the source contains no `clearTimeout` at
all) and the scheduled callback and its deadline survive unchanged; the
only state the call changes is the pending-waiter list, which gains the
caller's resolver. -/
theorem request_joins_timer (cfg : Config) (s : QState) (c : Nat)
    (ht : s.timerSet = true) (ha : s.activeSet = false) :
    requestSave cfg s c = ({ s with resolvers := s.resolvers ++ [c] }, []) := by
  simp [requestSave, ht, ha]

theorem request_joins_timer_witness :
    requestSave ⟨50, true⟩ ⟨true, 1, false, false, [1], []⟩ 2 =
      ({ timerSet := true, timersLive := 1, activeSet := false,
         dirty := false, resolvers := [1, 2], flushes := [] }, []) :=
  request_joins_timer ⟨50, true⟩ ⟨true, 1, false, false, [1], []⟩ 2 rfl rfl

/-- **C5**: any number `N ≥ 1` of `requestSave` calls issued within a
single debounce window — starting from an idle key, no flush in flight —
cause exactly one `saveFn` invocation, and it occurs at the moment the
window's timer fires: the whole observable trace is one `setTimeout` (from
the first call) followed by one `saveFn` call (from the timer callback). -/
theorem debounce_single_invoke (cfg : Config) (s : QState) (cs : List Nat)
    (hne : cs ≠ []) (ht : s.timerSet = false) (htl : s.timersLive = 0)
    (ha : s.activeSet = false) (hf : s.flushes = []) :
    run cfg s (cs.map Ev.req ++ [Ev.timerFire]) =
      some ({ s with timersLive := 0, timerSet := false, activeSet := true,
                     dirty := false, resolvers := s.resolvers ++ cs,
                     flushes := [FlushPhase.running] },
            [Out.setTimer cfg.delayMs, Out.invokeSave]) ∧
    saveCalls [Out.setTimer cfg.delayMs, Out.invokeSave] = 1 := by
  cases cs with
  | nil => exact absurd rfl hne
  | cons c cs =>
    refine ⟨?_, by simp [saveCalls]⟩
    simp only [List.map_cons, List.cons_append, run, step, requestSave,
               ha, ht, Bool.false_eq_true, if_false, List.append_eq]
    rw [run_append]
    rw [run_reqs_debounce _ _ _ (by simp [ha]) (by simp)]
    simp [run, step, htl, hf, List.append_assoc]

theorem debounce_single_invoke_witness :
    (run ⟨50, true⟩ initState ([4, 5, 6].map Ev.req ++ [Ev.timerFire]) =
      some ({ initState with timersLive := 0, timerSet := false,
                             activeSet := true, dirty := false,
                             resolvers := initState.resolvers ++ [4, 5, 6],
                             flushes := [FlushPhase.running] },
            [Out.setTimer 50, Out.invokeSave])) ∧
    saveCalls [Out.setTimer 50, Out.invokeSave] = 1 :=
  debounce_single_invoke ⟨50, true⟩ initState [4, 5, 6]
    (by decide) rfl rfl rfl rfl

/-- **C2**: requests arriving while a `saveFn(key)` invocation is in
flight are coalesced: however many arrive (`cs ≠ []`), after the in-flight
invocation settles exactly one further `saveFn` invocation occurs (after
the cooldown), never zero and never more than one, and the cycle then
completes with every accumulated waiter resolved. -/
theorem coalesce_one_followup (cfg : Config) (s : QState) (cs : List Nat)
    (t₁ t₂ : Bool) (ha : s.activeSet = true)
    (hf : s.flushes = [FlushPhase.running]) (hne : cs ≠ []) :
    ∃ outs,
      run cfg s (cs.map Ev.req ++
          [Ev.saveDone 0 t₁, Ev.sleepDone 0, Ev.saveDone 0 t₂]) =
        some ({ s with dirty := false, activeSet := false,
                       resolvers := [], flushes := [] }, outs) ∧
      saveCalls outs = 1 ∧
      Out.resolved (s.resolvers ++ cs) ∈ outs := by
  cases cs with
  | nil => exact absurd rfl hne
  | cons c cs =>
    refine ⟨errOut cfg t₁ ++ [Out.sleepStart cfg.delayMs, Out.invokeSave] ++
            (errOut cfg t₂ ++ [Out.resolved (s.resolvers ++ (c :: cs))]),
            ?_, ?_, ?_⟩
    · rw [run_append]
      rw [run_reqs_active _ _ _ ha]
      simp [run, step, hf, List.append_assoc]
    · simp only [saveCalls_append, saveCalls_errOut]
      simp [saveCalls]
    · simp

theorem coalesce_one_followup_witness :
    ∃ outs,
      run ⟨50, true⟩ ⟨false, 0, true, false, [3], [FlushPhase.running]⟩
          ([7, 8].map Ev.req ++
            [Ev.saveDone 0 false, Ev.sleepDone 0, Ev.saveDone 0 false]) =
        some ({ timerSet := false, timersLive := 0, activeSet := false,
                dirty := false, resolvers := [],
                flushes := [] }, outs) ∧
      saveCalls outs = 1 ∧
      Out.resolved ([3] ++ [7, 8]) ∈ outs :=
  coalesce_one_followup ⟨50, true⟩
    ⟨false, 0, true, false, [3], [FlushPhase.running]⟩ [7, 8] false false
    rfl rfl (by decide)

theorem mem_errOut (cfg : Config) (t : Bool) (o : Out) (h : o ∈ errOut cfg t) :
    o = Out.errorToHandler ∨ o = Out.errorLogged := by
  cases t with
  | false => simp [errOut] at h
  | true =>
    cases hc : cfg.hasOnError <;> simp [errOut, hc] at h <;> simp [h]

theorem resolved_not_mem_errOut (cfg : Config) (t : Bool) (l : List Nat) :
    Out.resolved l ∉ errOut cfg t := by
  intro h
  rcases mem_errOut cfg t _ h with h' | h' <;> simp at h'

/-- **C4**: pending waiters are resolved only by the step that completes a
flush cycle; that step resolves exactly the whole accumulated waiter list
at once, empties it, and marks the key inactive — and any step that does
not complete a cycle either leaves the waiter list unchanged or (for a
`requestSave`) appends the new caller, so no waiter is ever resolved early
or dropped. -/
theorem waiters_resolved_together (cfg : Config) (s s' : QState) (e : Ev)
    (outs : List Out) (h : step cfg s e = some (s', outs)) :
    (∀ l, Out.resolved l ∈ outs →
        l = s.resolvers ∧ s'.resolvers = [] ∧ s'.activeSet = false ∧
        s'.flushes.length + 1 = s.flushes.length) ∧
    ((∀ l, Out.resolved l ∉ outs) →
        s'.resolvers = s.resolvers ∨
        ∃ c, e = Ev.req c ∧ s'.resolvers = s.resolvers ++ [c]) := by
  cases e with
  | req c =>
    simp only [step, requestSave, Option.some.injEq, Prod.mk.injEq] at h
    split_ifs at h with ha ht <;> obtain ⟨rfl, rfl⟩ := h <;>
      exact ⟨by simp, fun _ => Or.inr ⟨c, rfl, by simp⟩⟩
  | timerFire =>
    simp only [step] at h
    split_ifs at h with htl
    simp only [Option.some.injEq, Prod.mk.injEq] at h
    obtain ⟨rfl, rfl⟩ := h
    exact ⟨by simp, fun _ => Or.inl rfl⟩
  | saveDone i threw =>
    simp only [step] at h
    split_ifs at h with hget hd <;>
      simp only [Option.some.injEq, Prod.mk.injEq] at h <;>
      obtain ⟨rfl, rfl⟩ := h
    · refine ⟨?_, fun _ => Or.inl rfl⟩
      intro l hl
      rcases List.mem_append.mp hl with hl' | hl'
      · exact absurd hl' (resolved_not_mem_errOut cfg threw l)
      · simp at hl'
    · refine ⟨?_, ?_⟩
      · intro l hl
        rcases List.mem_append.mp hl with hl' | hl'
        · exact absurd hl' (resolved_not_mem_errOut cfg threw l)
        · have hi : i < s.flushes.length := by
            rcases List.get?_eq_some.mp hget with ⟨hlt, _⟩
            exact hlt
          simp at hl'
          exact ⟨hl', rfl, rfl, List.length_eraseIdx_add_one hi⟩
      · intro hno
        exact absurd (by simp) (hno s.resolvers)
  | sleepDone i =>
    simp only [step] at h
    split_ifs at h with hget
    simp only [Option.some.injEq, Prod.mk.injEq] at h
    obtain ⟨rfl, rfl⟩ := h
    exact ⟨by simp, fun _ => Or.inl rfl⟩

theorem waiters_resolved_together_witness :
    (∀ l, Out.resolved l ∈ [Out.resolved [1, 2]] →
        l = (⟨false, 0, true, false, [1, 2], [FlushPhase.running]⟩ :
              QState).resolvers ∧
        (⟨false, 0, false, false, [], []⟩ : QState).resolvers = [] ∧
        (⟨false, 0, false, false, [], []⟩ : QState).activeSet = false ∧
        (⟨false, 0, false, false, [], []⟩ : QState).flushes.length + 1 =
          (⟨false, 0, true, false, [1, 2], [FlushPhase.running]⟩ :
            QState).flushes.length) ∧
    ((∀ l, Out.resolved l ∉ [Out.resolved [1, 2]]) →
        (⟨false, 0, false, false, [], []⟩ : QState).resolvers =
          (⟨false, 0, true, false, [1, 2], [FlushPhase.running]⟩ :
            QState).resolvers ∨
        ∃ c, Ev.saveDone 0 false = Ev.req c ∧
          (⟨false, 0, false, false, [], []⟩ : QState).resolvers =
            (⟨false, 0, true, false, [1, 2], [FlushPhase.running]⟩ :
              QState).resolvers ++ [c]) :=
  waiters_resolved_together ⟨50, true⟩
    ⟨false, 0, true, false, [1, 2], [FlushPhase.running]⟩
    ⟨false, 0, false, false, [], []⟩ (Ev.saveDone 0 false)
    [Out.resolved [1, 2]] (by decide)

/-- **C9**: within a flush cycle, `saveFn` is never re-invoked without an
intervening cooldown: every `saveFn` call is issued either by a firing
debounce timer (cycle start) or on completion of a `sleep`, and the only
transition that starts such a `sleep` passes `delayMs` to it — the same
magnitude the debounce timer was scheduled with. -/
theorem cooldown_before_reinvoke (cfg : Config) (s s' : QState) (e : Ev)
    (outs : List Out) (h : step cfg s e = some (s', outs)) (hinv : Inv s) :
    (Out.invokeSave ∈ outs →
        e = Ev.timerFire ∨
        ∃ i, e = Ev.sleepDone i ∧
          s.flushes.get? i = some FlushPhase.cooling) ∧
    (∀ i, s.flushes.get? i = some FlushPhase.running →
        s'.flushes.get? i = some FlushPhase.cooling →
        Out.sleepStart cfg.delayMs ∈ outs) ∧
    (∀ d, Out.setTimer d ∈ outs → d = cfg.delayMs) ∧
    (∀ d, Out.sleepStart d ∈ outs → d = cfg.delayMs) := by
  obtain ⟨h1, h2, h3, h4, h5, h6⟩ := hinv
  cases e with
  | req c =>
    simp only [step, requestSave, Option.some.injEq, Prod.mk.injEq] at h
    split_ifs at h with ha ht <;> obtain ⟨rfl, rfl⟩ := h
    · exact ⟨by simp, fun i hr hc => by simp only at hc; rw [hr] at hc; simp at hc,
             by simp, by simp⟩
    · exact ⟨by simp, fun i hr hc => by simp only at hc; rw [hr] at hc; simp at hc,
             by simp, by simp⟩
    · refine ⟨by simp, fun i hr hc => by simp only at hc; rw [hr] at hc; simp at hc,
              ?_, by simp⟩
      intro d hd
      simp at hd
      omega
  | timerFire =>
    simp only [step] at h
    split_ifs at h with htl
    simp only [Option.some.injEq, Prod.mk.injEq] at h
    obtain ⟨rfl, rfl⟩ := h
    have hf0 : s.flushes = [] := by
      rcases h5 with h0 | hf
      · omega
      · exact hf
    refine ⟨fun _ => Or.inl rfl, ?_, by simp, by simp⟩
    intro i hr hc
    rw [hf0] at hr
    simp at hr
  | saveDone i threw =>
    simp only [step] at h
    split_ifs at h with hget hd <;>
      simp only [Option.some.injEq, Prod.mk.injEq] at h <;>
      obtain ⟨rfl, rfl⟩ := h
    · refine ⟨?_, fun _ _ _ => by simp, ?_, ?_⟩
      · intro hmem
        rcases List.mem_append.mp hmem with h' | h'
        · rcases mem_errOut cfg threw _ h' with h'' | h'' <;> simp at h''
        · simp at h'
      · intro d hd
        rcases List.mem_append.mp hd with h' | h'
        · rcases mem_errOut cfg threw _ h' with h'' | h'' <;> simp at h''
        · simp at h'
      · intro d hd
        rcases List.mem_append.mp hd with h' | h'
        · rcases mem_errOut cfg threw _ h' with h'' | h'' <;> simp at h''
        · simp at h'
          omega
    · obtain ⟨hfl, rfl⟩ := eq_singleton_of_get _ _ _ h3 hget
      refine ⟨?_, ?_, ?_, ?_⟩
      · intro hmem
        rcases List.mem_append.mp hmem with h' | h'
        · rcases mem_errOut cfg threw _ h' with h'' | h'' <;> simp at h''
        · simp at h'
      · intro j hr hc
        simp only at hc
        rw [hfl] at hc
        simp at hc
      · intro d hd
        rcases List.mem_append.mp hd with h' | h'
        · rcases mem_errOut cfg threw _ h' with h'' | h'' <;> simp at h''
        · simp at h'
      · intro d hd
        rcases List.mem_append.mp hd with h' | h'
        · rcases mem_errOut cfg threw _ h' with h'' | h'' <;> simp at h''
        · simp at h'
  | sleepDone i =>
    simp only [step] at h
    split_ifs at h with hget
    simp only [Option.some.injEq, Prod.mk.injEq] at h
    obtain ⟨rfl, rfl⟩ := h
    obtain ⟨hfl, rfl⟩ := eq_singleton_of_get _ _ _ h3 hget
    refine ⟨fun _ => Or.inr ⟨0, rfl, hget⟩, ?_, by simp, by simp⟩
    intro j hr hc
    rw [hfl] at hr
    cases j with
    | zero => simp [List.get?] at hr
    | succ n => simp [List.get?] at hr

theorem cooldown_before_reinvoke_witness :
    (Out.invokeSave ∈ [Out.sleepStart 50] →
        Ev.saveDone 0 false = Ev.timerFire ∨
        ∃ i, Ev.saveDone 0 false = Ev.sleepDone i ∧
          (⟨false, 0, true, true, [1], [FlushPhase.running]⟩ :
            QState).flushes.get? i = some FlushPhase.cooling) ∧
    (∀ i, (⟨false, 0, true, true, [1], [FlushPhase.running]⟩ :
            QState).flushes.get? i = some FlushPhase.running →
        (⟨false, 0, true, true, [1], [FlushPhase.cooling]⟩ :
          QState).flushes.get? i = some FlushPhase.cooling →
        Out.sleepStart 50 ∈ [Out.sleepStart 50]) ∧
    (∀ d, Out.setTimer d ∈ [Out.sleepStart 50] → d = 50) ∧
    (∀ d, Out.sleepStart d ∈ [Out.sleepStart 50] → d = 50) :=
  cooldown_before_reinvoke ⟨50, true⟩
    ⟨false, 0, true, true, [1], [FlushPhase.running]⟩
    ⟨false, 0, true, true, [1], [FlushPhase.cooling]⟩ (Ev.saveDone 0 false)
    [Out.sleepStart 50] (by decide) (by decide)

/-- The canonical completion schedule from state `s` once no further
requests arrive: fire the pending timer (idle/debouncing key), or let the
suspended `saveFn` / `sleep` of the running flush settle; `t₁`, `t₂`
choose whether the remaining save attempts throw. -/
def drainEvents (t₁ t₂ : Bool) (s : QState) : List Ev :=
  match s.flushes with
  | [] => [Ev.timerFire, Ev.saveDone 0 t₁]
  | FlushPhase.running :: _ =>
    [Ev.saveDone 0 t₁, Ev.sleepDone 0, Ev.saveDone 0 t₂]
  | FlushPhase.cooling :: _ => [Ev.sleepDone 0, Ev.saveDone 0 t₁]

/-- **C3**: the promise returned by `requestSave` always resolves and never
rejects.  `requestSave` is a total function and no transition carries a
rejection — in particular, whatever combination of save attempts throws
(`t₁`, `t₂` arbitrary), once the pending work drains the caller's resolver
is invoked, and each throwing `saveFn` attempt is reported (to `onError`
when configured, else the log) exactly once per flush attempt. -/
theorem requestSave_always_resolves (cfg : Config) (s : QState) (c : Nat)
    (t₁ t₂ : Bool) (hinv : Inv s) :
    ∃ s' outs,
      run cfg (requestSave cfg s c).1 (drainEvents t₁ t₂ s) =
        some (s', outs) ∧
      (∃ l, Out.resolved l ∈ outs ∧ c ∈ l) ∧
      errCalls outs = throwCount (drainEvents t₁ t₂ s) ∧
      s'.resolvers = [] := by
  obtain ⟨h1, h2, h3, h4, h5, h6⟩ := hinv
  rcases hfe : s.flushes with _ | ⟨p, rest⟩
  · -- no flush in flight: the request leads to (or joins) a debounce timer
    have ha : s.activeSet = false := by
      cases hA : s.activeSet
      · rfl
      · have := h4.mp (by rw [hA])
        rw [hfe] at this
        simp at this
    have hd : s.dirty = false := h6 hfe
    refine ⟨⟨false, 0, false, false, [], []⟩,
            [Out.invokeSave] ++ errOut cfg t₁ ++
              [Out.resolved (s.resolvers ++ [c])],
            ?_, ⟨s.resolvers ++ [c], by simp, by simp⟩, ?_, rfl⟩
    · cases hts : s.timerSet
      · have htl : s.timersLive = 0 := by
          have := fun h => (h2.mpr h)
          rcases Nat.lt_or_ge s.timersLive 1 with hlt | hge
          · omega
          · have h11 : s.timersLive = 1 := by omega
            rw [h2.mpr h11] at hts
            simp at hts
        simp [drainEvents, hfe, requestSave, ha, hts, run, step, htl, hd]
      · have htl : s.timersLive = 1 := h2.mp hts
        simp [drainEvents, hfe, requestSave, ha, hts, run, step, htl, hd]
    · cases t₁ <;>
        simp [errCalls_append, errCalls_errOut, errCalls_cons_invoke,
              errCalls_cons_resolved, errCalls_cons_sleepStart, errCalls_nil,
              throwCount, drainEvents, hfe]
  · -- a flush is executing
    have hrest : rest = [] := by
      rw [hfe] at h3
      simpa using h3
    subst hrest
    have ha : s.activeSet = true := h4.mpr (by rw [hfe]; rfl)
    have htl : s.timersLive = 0 := by
      rcases h5 with h0 | hf
      · exact h0
      · rw [hfe] at hf
        simp at hf
    have hts : s.timerSet = false := by
      cases hT : s.timerSet
      · rfl
      · have := h2.mp (by rw [hT])
        omega
    cases p with
    | running =>
      refine ⟨⟨false, 0, false, false, [], []⟩,
              errOut cfg t₁ ++ [Out.sleepStart cfg.delayMs, Out.invokeSave] ++
                errOut cfg t₂ ++ [Out.resolved (s.resolvers ++ [c])],
              ?_, ⟨s.resolvers ++ [c], by simp, by simp⟩, ?_, rfl⟩
      · simp [drainEvents, hfe, requestSave, ha, run, step, htl, hts]
      · cases t₁ <;> cases t₂ <;>
          simp [errCalls_append, errCalls_errOut, errCalls_cons_invoke,
                errCalls_cons_resolved, errCalls_cons_sleepStart, errCalls_nil,
                throwCount, drainEvents, hfe]
    | cooling =>
      refine ⟨⟨false, 0, false, false, [], []⟩,
              [Out.invokeSave] ++ errOut cfg t₁ ++
                [Out.resolved (s.resolvers ++ [c])],
              ?_, ⟨s.resolvers ++ [c], by simp, by simp⟩, ?_, rfl⟩
      · simp [drainEvents, hfe, requestSave, ha, run, step, htl, hts]
      · cases t₁ <;>
          simp [errCalls_append, errCalls_errOut, errCalls_cons_invoke,
                errCalls_cons_resolved, errCalls_cons_sleepStart, errCalls_nil,
                throwCount, drainEvents, hfe]

theorem requestSave_always_resolves_witness :
    ∃ s' outs,
      run ⟨50, false⟩ (requestSave ⟨50, false⟩ initState 9).1
          (drainEvents true false initState) = some (s', outs) ∧
      (∃ l, Out.resolved l ∈ outs ∧ 9 ∈ l) ∧
      errCalls outs = throwCount (drainEvents true false initState) ∧
      s'.resolvers = [] :=
  requestSave_always_resolves ⟨50, false⟩ initState 9 true false (by decide)

/-- The full multi-key queue: every container of the source class is
keyed by `K`, so the machine state is one `QState` per key and an event
happens at exactly one key; outputs are tagged with their key. -/
def kstep {K : Type} [DecidableEq K] (cfg : Config) (s : K → QState)
    (k : K) (e : Ev) : Option ((K → QState) × List (K × Out)) :=
  match step cfg (s k) e with
  | none => none
  | some (q, outs) =>
    some (Function.update s k q, outs.map fun o => (k, o))

def krun {K : Type} [DecidableEq K] (cfg : Config) :
    (K → QState) → List (K × Ev) → Option ((K → QState) × List (K × Out))
  | s, [] => some (s, [])
  | s, (k, e) :: es =>
    match kstep cfg s k e with
    | none => none
    | some (s', outs) =>
      match krun cfg s' es with
      | none => none
      | some (s'', outs') => some (s'', outs ++ outs')

theorem tagged_filter_ne {K : Type} [DecidableEq K] (k' k : K)
    (hk : k' ≠ k) (o : List Out) :
    (o.map fun x => (k', x)).filter (fun p => p.1 == k) = [] := by
  induction o with
  | nil => rfl
  | cons x xs ih =>
    simp only [List.map_cons, List.filter,
               show (k' == k) = false from by simp [hk]]
    exact ih

theorem tagged_filter_map {K : Type} [DecidableEq K] (k : K)
    (o : List Out) :
    ((o.map fun x => (k, x)).filter (fun p => p.1 == k)).map Prod.snd =
      o := by
  induction o with
  | nil => rfl
  | cons x xs ih =>
    simp only [List.map_cons, List.filter, beq_self_eq_true]
    simp [ih]

/-- Keys are fully independent: the run of the multi-key queue, observed
at one key `k`, is exactly the per-key machine's run on the events at
`k` — events at other keys neither change `k`'s state nor emit outputs
tagged `k`.  This justifies settling the per-key claims on the per-key
machine. -/
theorem krun_proj {K : Type} [DecidableEq K] (cfg : Config)
    (evs : List (K × Ev)) (s s' : K → QState) (outs : List (K × Out))
    (h : krun cfg s evs = some (s', outs)) (k : K) :
    run cfg (s k) ((evs.filter (fun p => p.1 == k)).map Prod.snd) =
      some (s' k, (outs.filter (fun p => p.1 == k)).map Prod.snd) := by
  induction evs generalizing s outs with
  | nil =>
    simp only [krun, Option.some.injEq, Prod.mk.injEq] at h
    obtain ⟨rfl, rfl⟩ := h
    simp [run]
  | cons p es ih =>
    obtain ⟨k', e⟩ := p
    cases hstep : step cfg (s k') e with
    | none => simp [krun, kstep, hstep] at h
    | some q =>
      obtain ⟨q₁, o₁⟩ := q
      cases hrun : krun cfg (Function.update s k' q₁) es with
      | none => simp [krun, kstep, hstep, hrun] at h
      | some r =>
        obtain ⟨s₂, o₂⟩ := r
        simp only [krun, kstep, hstep, hrun, Option.some.injEq,
                   Prod.mk.injEq] at h
        obtain ⟨rfl, rfl⟩ := h
        have hih := ih (Function.update s k' q₁) o₂ hrun
        by_cases hk : k' = k
        · subst hk
          rw [Function.update_same] at hih
          simp only [List.filter, beq_self_eq_true, List.filter_append,
                     List.map_append, List.map_cons]
          rw [tagged_filter_map]
          simp only [run, hstep, hih]
        · have hbk : (k' == k) = false := by
            simp [hk]
          rw [Function.update_noteq (fun hkk => hk hkk.symm)] at hih
          simp only [List.filter, hbk, List.filter_append, List.map_append,
                     tagged_filter_ne k' k hk]
          simpa using hih

end SaveQueue

namespace FileUtil

/-- A filesystem: each path maps to its full content, or `none` if
absent. -/
abbrev FS := String → Option String

/-- The filesystem operations `atomicWriteFile` issues. -/
inductive FsOp
  | write (p c : String)
  | rename (src dst : String)
  | unlink (p : String)
deriving DecidableEq

/-- Effect of one completed operation.  A same-directory `rename` is
atomic: the destination takes the source's content and the source
disappears. -/
def applyOp (fs : FS) : FsOp → FS
  | FsOp.write p c => fun q => if q = p then some c else fs q
  | FsOp.rename src dst =>
    fun q => if q = dst then fs src else if q = src then none else fs q
  | FsOp.unlink p => fun q => if q = p then none else fs q

def applyOps (fs : FS) (ops : List FsOp) : FS := ops.foldl applyOp fs

/-- The temp sibling name: `${filePath}.${process.pid}.tmp` (source
line 51). -/
def tmpPath (filePath : String) (pid : Nat) : String :=
  filePath ++ "." ++ toString pid ++ ".tmp"

/-- The operation sequence of an uninterrupted `atomicWriteFile`
(lines 47–58): write the full payload to the temp sibling, then rename it
over the target. -/
def atomicWriteOps (filePath data : String) (pid : Nat) : List FsOp :=
  [FsOp.write (tmpPath filePath pid) data,
   FsOp.rename (tmpPath filePath pid) filePath]

/-- Crash semantics: the first `n` operations complete; if the next
operation is a `write`, the crash may leave that file holding arbitrary
torn content `t` (a `rename` or `unlink` is atomic — it either happened
among the first `n` or not at all). -/
def crashRun (fs : FS) (ops : List FsOp) (n : Nat) (torn : Option String) :
    FS :=
  let done := applyOps fs (ops.take n)
  match ops.get? n, torn with
  | some (FsOp.write p _), some t => applyOp done (FsOp.write p t)
  | _, _ => done

theorem tmpPath_ne (filePath : String) (pid : Nat) :
    tmpPath filePath pid ≠ filePath := by
  intro h
  have hlen := congrArg String.length h
  rw [tmpPath] at hlen
  rw [String.length_append, String.length_append,
      String.length_append] at hlen
  have h1 : (".").length = 1 := rfl
  have h4 : (".tmp").length = 4 := rfl
  omega

/-- **C7**: `atomicWriteFile` writes the full payload to the temp sibling
named `path + "." + pid + ".tmp"` and then renames it onto the target.  A
completed run leaves the target holding exactly the payload (with the temp
file gone); a run interrupted at any point leaves the target either with
its previous content — hence still absent if it never existed — or with
exactly the new payload.  The target never holds a torn payload: only the
temp path can receive torn content, and it is a different path. -/
theorem atomicWriteFile_no_torn_target (fs : FS) (filePath data : String)
    (pid : Nat) (n : Nat) (torn : Option String) :
    atomicWriteOps filePath data pid =
      [FsOp.write (tmpPath filePath pid) data,
       FsOp.rename (tmpPath filePath pid) filePath] ∧
    applyOps fs (atomicWriteOps filePath data pid) filePath = some data ∧
    applyOps fs (atomicWriteOps filePath data pid) (tmpPath filePath pid)
      = none ∧
    (crashRun fs (atomicWriteOps filePath data pid) n torn filePath =
        fs filePath ∨
      crashRun fs (atomicWriteOps filePath data pid) n torn filePath =
        some data) := by
  have hne := tmpPath_ne filePath pid
  refine ⟨rfl, ?_, ?_, ?_⟩
  · simp [applyOps, applyOp, atomicWriteOps, hne]
  · simp [applyOps, applyOp, atomicWriteOps, hne]
  · cases n with
    | zero =>
      left
      rcases torn with _ | t <;>
        simp [crashRun, atomicWriteOps, applyOps, applyOp, hne, Ne.symm hne]
    | succ n =>
      cases n with
      | zero =>
        left
        rcases torn with _ | t <;>
          simp [crashRun, atomicWriteOps, applyOps, applyOp, hne,
                Ne.symm hne]
      | succ m =>
        right
        rcases torn with _ | t <;>
          simp [crashRun, atomicWriteOps, applyOps, applyOp, hne,
                Ne.symm hne]

/-- Windows-transient error codes retried by `atomicWriteFile`
(line 7). -/
def WINDOWS_TRANSIENT_CODES : List String := ["EPERM", "EBUSY", "EACCES"]

/-- `RENAME_MAX_RETRIES` (line 8): 3 on Windows, 1 elsewhere. -/
def RENAME_MAX_RETRIES (isWindows : Bool) : Nat := if isWindows then 3 else 1

/-- `RENAME_RETRY_MS` (line 9). -/
def RENAME_RETRY_MS : Nat := 100

/-- Observable actions of the rename loop. -/
inductive RAct
  | renameTry
  | sleepRetry (ms : Nat)
  | unlinkTmp
deriving DecidableEq

/-- The retry loop of `atomicWriteFile` (lines 55–76), over an oracle
`outcomes` giving each rename attempt's result (`none` = success,
`some code` = it threw with that error code) and `unlinkErr` the
best-effort cleanup's outcome — the `catch \x7b\x7d` around `unlink`
swallows it either way, which the two identical match arms mirror.
`attempt` is the loop variable; `fuel` is the number of remaining
iterations, `RENAME_MAX_RETRIES - attempt` throughout. -/
def renameGo (isWindows : Bool) (outcomes : Nat → Option String)
    (unlinkErr : Option String) :
    Nat → Nat → List RAct × Except String Unit
  | _, 0 => ([], Except.ok ())
  | attempt, fuel + 1 =>
    match outcomes attempt with
    | none => ([RAct.renameTry], Except.ok ())
    | some code =>
      if isWindows = true ∧ code ∈ WINDOWS_TRANSIENT_CODES ∧
          attempt < RENAME_MAX_RETRIES isWindows - 1 then
        let r := renameGo isWindows outcomes unlinkErr (attempt + 1) fuel
        (RAct.renameTry :: RAct.sleepRetry RENAME_RETRY_MS :: r.1, r.2)
      else
        match unlinkErr with
        | some _ => ([RAct.renameTry, RAct.unlinkTmp], Except.error code)
        | none => ([RAct.renameTry, RAct.unlinkTmp], Except.error code)

/-- The rename phase of `atomicWriteFile`: the `for` loop starting at
`attempt = 0` with `RENAME_MAX_RETRIES` iterations. -/
def renameWithRetry (isWindows : Bool) (outcomes : Nat → Option String)
    (unlinkErr : Option String) : List RAct × Except String Unit :=
  renameGo isWindows outcomes unlinkErr 0 (RENAME_MAX_RETRIES isWindows)

/-- **C8**: the rename is retried only on Windows and only for the
allow-list EPERM/EBUSY/EACCES, up to 3 total attempts separated by 100 ms
pauses; on any other platform or error code, failure is immediate after a
single attempt; and whenever the final attempt fails, the temp file is
unlinked best-effort (the result does not depend on `unlinkErr`) and the
failing rename attempt's own error is what propagates to the caller. -/
theorem rename_retry_policy (outcomes : Nat → Option String)
    (unlinkErr : Option String) :
    (∀ code, outcomes 0 = some code →
        renameWithRetry false outcomes unlinkErr =
          ([RAct.renameTry, RAct.unlinkTmp], Except.error code)) ∧
    (∀ code, outcomes 0 = some code → code ∉ WINDOWS_TRANSIENT_CODES →
        renameWithRetry true outcomes unlinkErr =
          ([RAct.renameTry, RAct.unlinkTmp], Except.error code)) ∧
    (∀ c0 c1 c2, outcomes 0 = some c0 → c0 ∈ WINDOWS_TRANSIENT_CODES →
        outcomes 1 = some c1 → c1 ∈ WINDOWS_TRANSIENT_CODES →
        outcomes 2 = some c2 →
        renameWithRetry true outcomes unlinkErr =
          ([RAct.renameTry, RAct.sleepRetry 100, RAct.renameTry,
            RAct.sleepRetry 100, RAct.renameTry, RAct.unlinkTmp],
           Except.error c2)) ∧
    (outcomes 0 = none →
        renameWithRetry false outcomes unlinkErr =
          ([RAct.renameTry], Except.ok ()) ∧
        renameWithRetry true outcomes unlinkErr =
          ([RAct.renameTry], Except.ok ())) := by
  refine ⟨?_, ?_, ?_, ?_⟩
  · intro code h0
    rcases unlinkErr with _ | u <;>
      simp [renameWithRetry, renameGo, RENAME_MAX_RETRIES, h0]
  · intro code h0 hnm
    rcases unlinkErr with _ | u <;>
      simp [renameWithRetry, renameGo, RENAME_MAX_RETRIES, h0, hnm]
  · intro c0 c1 c2 h0 hm0 h1 hm1 h2
    rcases unlinkErr with _ | u <;>
      simp [renameWithRetry, renameGo, RENAME_MAX_RETRIES, h0, hm0, h1,
            hm1, h2, RENAME_RETRY_MS]
  · intro h0
    constructor <;>
      simp [renameWithRetry, renameGo, RENAME_MAX_RETRIES, h0]

theorem rename_retry_policy_witness :
    renameWithRetry true
        (fun i => if i = 0 then some "EPERM"
          else if i = 1 then some "EBUSY" else some "ENOENT")
        (some "EACCES") =
      ([RAct.renameTry, RAct.sleepRetry 100, RAct.renameTry,
        RAct.sleepRetry 100, RAct.renameTry, RAct.unlinkTmp],
       Except.error "ENOENT") :=
  (rename_retry_policy
      (fun i => if i = 0 then some "EPERM"
        else if i = 1 then some "EBUSY" else some "ENOENT")
      (some "EACCES")).2.2.1 "EPERM" "EBUSY" "ENOENT"
    (by decide) (by decide) (by decide) (by decide) (by decide)

/-- A thrown JS error, as observed by the catch blocks: only its optional
`code` property matters. -/
structure JsError where
  code : Option String
deriving DecidableEq

/-- A parsed JSON value (the shapes relevant here); `JValue.null` is the
JS value `null`, which is also what the ENOENT branch returns. -/
inductive JValue
  | null
  | bool (b : Bool)
  | num (n : Int)
  | str (s : String)
deriving DecidableEq

/-- `readJsonFile` (part_001 lines 82–92) over an abstract platform
`JSON.parse` (`parse`) and the outcome of `fs.readFile` (`read`).  The
`try` block reads then parses; the `catch` block returns `null` when the
caught error's `code` is `'ENOENT'` and rethrows otherwise.  The TS return
type `T | null` cannot distinguish the `return null` sentinel from a
parsed JSON `null`, so both are the one value `JValue.null`. -/
def readJsonFile (parse : String → Except JsError JValue)
    (read : Except JsError String) : Except JsError JValue :=
  match (match read with
         | Except.ok content => parse content
         | Except.error e => Except.error e) with
  | Except.ok v => Except.ok v
  | Except.error e =>
    if e.code = some "ENOENT" then Except.ok JValue.null
    else Except.error e

/-- Modelled from the platform (not repository code): `JSON.parse`
restricted to the literals the counterexample needs.  ECMA-262 specifies
that `JSON.parse` maps the text `null` to the value `null`, and that parse
failures are `SyntaxError`s, which carry no `code` property. -/
def parseLit (s : String) : Except JsError JValue :=
  if s = "null" then Except.ok JValue.null
  else if s = "true" then Except.ok (JValue.bool true)
  else if s = "false" then Except.ok (JValue.bool false)
  else Except.error ⟨none⟩

theorem parseLit_err (s : String) (e : JsError)
    (h : parseLit s = Except.error e) : e.code = none := by
  rw [parseLit] at h
  split_ifs at h
  rw [Except.error.injEq] at h
  rw [← h]

/-- **C10 counterexample**: for a file that exists and whose content is
the four bytes `null`, `readJsonFile` returns the JS value `null` even
though the read succeeded — no ENOENT occurred — so "returns null exactly
when reading the file fails with ENOENT" fails in the only-if
direction. -/
theorem readJsonFile_null_content_cex :
    readJsonFile parseLit (Except.ok "null") = Except.ok JValue.null ∧
    (Except.ok "null" : Except JsError String) ≠
      Except.error ⟨some "ENOENT"⟩ := by
  constructor
  · rfl
  · simp

/-- **C10 amended**: `readJsonFile` returns JS `null` exactly when the
read fails with ENOENT or the file's content parses to JSON `null`; any
other read error is propagated as an exception, a parse failure of an
existing file's content is propagated (platform parse errors carry no
`code`, so they never match the ENOENT test), and otherwise the parsed
value is returned. -/
theorem readJsonFile_null_iff (parse : String → Except JsError JValue)
    (read : Except JsError String)
    (hparse : ∀ s e, parse s = Except.error e → e.code = none) :
    (readJsonFile parse read = Except.ok JValue.null ↔
      (read = Except.error ⟨some "ENOENT"⟩ ∨
        ∃ s, read = Except.ok s ∧ parse s = Except.ok JValue.null)) ∧
    (∀ e, read = Except.error e → e.code ≠ some "ENOENT" →
      readJsonFile parse read = Except.error e) ∧
    (∀ s e, read = Except.ok s → parse s = Except.error e →
      readJsonFile parse read = Except.error e) ∧
    (∀ s v, read = Except.ok s → parse s = Except.ok v →
      readJsonFile parse read = Except.ok v) := by
  rcases read with e | s
  case error =>
    by_cases he : e.code = some "ENOENT"
    · have heq : e = ⟨some "ENOENT"⟩ := by
        cases e
        simp_all
      subst heq
      refine ⟨?_, ?_, by simp, by simp⟩
      · simp [readJsonFile]
      · intro e' he' hne
        rw [Except.error.injEq] at he'
        rw [← he'] at hne
        exact absurd rfl hne
    · refine ⟨?_, ?_, by simp, by simp⟩
      · simp only [readJsonFile]
        rw [if_neg he]
        constructor
        · intro h
          simp at h
        · intro h
          rcases h with h | ⟨s', hs', _⟩
          · rw [Except.error.injEq] at h
            rw [h] at he
            simp at he
          · simp at hs'
      · intro e' he' hne
        rw [Except.error.injEq] at he'
        subst he'
        simp only [readJsonFile]
        rw [if_neg he]
  case ok =>
    cases hp : parse s with
    | ok v =>
      refine ⟨?_, by simp, ?_, ?_⟩
      · simp only [readJsonFile, hp]
        constructor
        · intro h
          rw [Except.ok.injEq] at h
          exact Or.inr ⟨s, rfl, by rw [hp, h]⟩
        · intro h
          rcases h with h | ⟨s', hs', hnull⟩
          · simp at h
          · rw [Except.ok.injEq] at hs'
            rw [hs'] at hp
            rw [hp] at hnull
            rw [hnull]
      · intro s' e hs' hp'
        rw [Except.ok.injEq] at hs'
        rw [hs'] at hp
        rw [hp] at hp'
        simp at hp'
      · intro s' v' hs' hp'
        rw [Except.ok.injEq] at hs'
        subst hs'
        simp only [readJsonFile, hp']
    | error e =>
      have hce : e.code = none := hparse s e hp
      refine ⟨?_, by simp, ?_, ?_⟩
      · simp only [readJsonFile, hp, hce]
        constructor
        · intro h
          simp at h
        · intro h
          rcases h with h | ⟨s', hs', hnull⟩
          · simp at h
          · rw [Except.ok.injEq] at hs'
            rw [hs'] at hp
            rw [hp] at hnull
            simp at hnull
      · intro s' e' hs' hp'
        rw [Except.ok.injEq] at hs'
        subst hs'
        rw [hp] at hp'
        rw [Except.error.injEq] at hp'
        subst hp'
        simp only [readJsonFile, hp]
        rw [if_neg]
        simp [hce]
      · intro s' v' hs' hp'
        rw [Except.ok.injEq] at hs'
        rw [hs'] at hp
        rw [hp] at hp'
        simp at hp'

theorem readJsonFile_null_iff_witness :
    ((readJsonFile parseLit (Except.ok "true") = Except.ok JValue.null ↔
      ((Except.ok "true" : Except JsError String) =
          Except.error ⟨some "ENOENT"⟩ ∨
        ∃ s, (Except.ok "true" : Except JsError String) = Except.ok s ∧
          parseLit s = Except.ok JValue.null)) ∧
    (∀ e, (Except.ok "true" : Except JsError String) = Except.error e →
      e.code ≠ some "ENOENT" →
      readJsonFile parseLit (Except.ok "true") = Except.error e) ∧
    (∀ s e, (Except.ok "true" : Except JsError String) = Except.ok s →
      parseLit s = Except.error e →
      readJsonFile parseLit (Except.ok "true") = Except.error e) ∧
    (∀ s v, (Except.ok "true" : Except JsError String) = Except.ok s →
      parseLit s = Except.ok v →
      readJsonFile parseLit (Except.ok "true") = Except.ok v)) :=
  readJsonFile_null_iff parseLit (Except.ok "true") parseLit_err

end FileUtil
